import Mathlib

/-!
Shallow embedding of the InvestorFinder conversation-memory, pagination,
search-cache, trigger-classification, provider-registry and chat-orchestration
logic (app/services/memory_service.py, app/services/investor_service.py,
app/services/chat_service.py, app/core/providers.py), together with theorems
settling the frozen claims about that code.

Machine conventions: timestamps (datetime.utcnow / time.time) are modelled as
integers (seconds); Python dicts are modelled as association lists with
insertion-order semantics (assignment replaces in place, new keys append);
fallible calls are modelled as Except values supplied by the caller.
-/

set_option maxRecDepth 4000

namespace InvestorFinder

/-! ### Python primitives: substring test, dict operations, negative slices -/

/-- Python substring containment (the `in` operator) on character lists:
`needle` occurs contiguously inside the list. -/
def charsContain (needle : List Char) : List Char → Bool
  | [] => needle.isEmpty
  | c :: rest => needle.isPrefixOf (c :: rest) || charsContain needle rest

/-- Python `needle in haystack` for strings. -/
def strContains (haystack needle : String) : Bool :=
  charsContain needle.toList haystack.toList

/-- Python `str.lower` on one character, for the ASCII range (every string
the services lowercase — trigger words, sector names, provider names,
investor names compared for dedup — is compared on this range). -/
def pyCharLower (c : Char) : Char :=
  if 65 ≤ c.toNat ∧ c.toNat ≤ 90 then Char.ofNat (c.toNat + 32) else c

/-- Python `str.lower` on a string. -/
def pyLower (s : String) : String := String.mk (s.toList.map pyCharLower)

/-- Python dict lookup `d.get(k)` on an association list. -/
def dictLookup (k : String) : List (String × β) → Option β
  | [] => none
  | (k₂, v) :: rest => if k₂ = k then some v else dictLookup k rest

/-- Python dict assignment `d[k] = v`: replaces an existing key in place,
otherwise appends at the end (insertion order). -/
def dictSet (k : String) (v : β) : List (String × β) → List (String × β)
  | [] => [(k, v)]
  | (k₂, v₂) :: rest => if k₂ = k then (k, v) :: rest else (k₂, v₂) :: dictSet k v rest

/-- Python dict deletion `d.pop(k, None)` / `del d[k]`. -/
def dictErase (k : String) : List (String × β) → List (String × β)
  | [] => []
  | (k₂, v) :: rest => if k₂ = k then rest else (k₂, v) :: dictErase k rest

/-- Python negative-index slice `l[-k:]`. For `k = 0` this is `l[0:] = l`
(the `-0 = 0` quirk); for `k > 0` it keeps the last `k` elements. -/
def pyLastSlice (k : Nat) (l : List α) : List α :=
  if k = 0 then l else l.drop (l.length - k)

/-! ### Data model (app/models/schemas.py, reduced to the fields the
services read) -/

inductive MessageRole where
  | user
  | assistant
  | system
deriving DecidableEq, Repr

structure ChatMessage where
  role : MessageRole
  content : String
  timestamp : Int
deriving DecidableEq, Repr

structure InvestorProfile where
  name : String
  title : Option String := none
  company : Option String := none
  email : Option String := none
  linkedin_url : Option String := none
  bio : Option String := none
  source : String := "web_search"
deriving DecidableEq, Repr

structure SearchResult where
  title : String
  url : String
  snippet : String
deriving DecidableEq, Repr

/-! ### ConversationContext (memory_service.py lines 19-131) -/

structure ConversationContext where
  conversation_id : String
  messages : List ChatMessage := []
  investors : List InvestorProfile := []
  search_results : List SearchResult := []
  sectors_discussed : List String := []
  created_at : Int := 0
  updated_at : Int := 0
deriving DecidableEq, Repr

/-- Shared shape of `ConversationContext.add_investors` and
`add_search_results`: walk the incoming list keeping a set `seen` of keys
(initialised from the stored list), appending only entries whose key is
unseen. Returns the updated seen-set and the accumulated list. -/
def dedupAppendLoop (key : α → String) (seen : List String) (acc : List α) :
    List α → List String × List α
  | [] => (seen, acc)
  | x :: rest =>
    if key x ∈ seen then dedupAppendLoop key seen acc rest
    else dedupAppendLoop key (key x :: seen) (acc ++ [x]) rest

/-- Dedup key of an investor: the lowercased name (memory_service.py line 43). -/
def invKey (inv : InvestorProfile) : String := pyLower inv.name

/-- Dedup key of a search result: its URL (memory_service.py line 52). -/
def srKey (r : SearchResult) : String := r.url

/-- `ConversationContext.add_message` (memory_service.py lines 32-39). -/
def ConversationContext.add_message (ctx : ConversationContext) (role : MessageRole)
    (content : String) (now : Int) : ConversationContext :=
  { ctx with messages := ctx.messages ++ [⟨role, content, now⟩], updated_at := now }

/-- `ConversationContext.add_investors` (memory_service.py lines 41-48):
seed the seen-set with the lowercased names already stored, then append the
incoming investors whose lowercased name is new. -/
def ConversationContext.add_investors (ctx : ConversationContext)
    (new : List InvestorProfile) (now : Int) : ConversationContext :=
  { ctx with
      investors := (dedupAppendLoop invKey (ctx.investors.map invKey) ctx.investors new).2,
      updated_at := now }

/-- `ConversationContext.add_search_results` (memory_service.py lines 50-57):
same pattern keyed by URL. -/
def ConversationContext.add_search_results (ctx : ConversationContext)
    (new : List SearchResult) (now : Int) : ConversationContext :=
  { ctx with
      search_results := (dedupAppendLoop srKey (ctx.search_results.map srKey) ctx.search_results new).2,
      updated_at := now }

/-- Loop body of `ConversationContext.add_sectors` (memory_service.py lines
59-64): membership is checked case-insensitively against the growing list. -/
def addSectorsLoop (acc : List String) : List String → List String
  | [] => acc
  | s :: rest =>
    if pyLower s ∈ acc.map pyLower then addSectorsLoop acc rest
    else addSectorsLoop (acc ++ [s]) rest

/-- `ConversationContext.add_sectors` (memory_service.py lines 59-64). -/
def ConversationContext.add_sectors (ctx : ConversationContext)
    (new : List String) (now : Int) : ConversationContext :=
  { ctx with
      sectors_discussed := addSectorsLoop ctx.sectors_discussed new,
      updated_at := now }

/-- `ConversationContext.get_message_history` (memory_service.py lines 66-70):
a falsy limit (None or 0) returns the full list, otherwise the last `limit`. -/
def getMessageHistory (ctx : ConversationContext) (limit : Nat) : List ChatMessage :=
  if limit = 0 then ctx.messages else pyLastSlice limit ctx.messages

/-! ### Pagination (investor_service.py lines 312-333) -/

/-- `InvestorService.get_paginated_investors`: slice
`[page*page_size, min(page*page_size+page_size, total))` of the stored
investor list, the total count, and whether entries remain past this page. -/
def getPaginatedInvestors (allInvestors : List InvestorProfile)
    (page : Nat) (pageSize : Nat) : List InvestorProfile × Nat × Bool :=
  let total := allInvestors.length
  let startIdx := page * pageSize
  let endIdx := min (startIdx + pageSize) total
  if startIdx ≥ total then ([], total, false)
  else ((allInvestors.drop startIdx).take (endIdx - startIdx), total,
        decide (endIdx < total))

/-! ### Search cache (investor_service.py lines 361-383) -/

structure CacheEntry where
  ts : Int
  investors : List InvestorProfile
  search_results : List SearchResult
deriving DecidableEq, Repr

/-- `InvestorService._cache_key` (investor_service.py lines 361-363): sorted
lowercased sectors joined with commas, lowercased location, literal count. -/
def cacheKey (sectors : List String) (location : String) (numResults : Nat) : String :=
  String.intercalate "," (List.insertionSort (fun a b : String => a ≤ b)
      (sectors.map pyLower))
    ++ "|" ++ pyLower location ++ "|" ++ toString numResults

/-- `InvestorService._get_cached` (investor_service.py lines 365-373): a hit
older than the TTL is evicted and treated as a miss. Returns the looked-up
entry and the possibly-updated cache. -/
def getCached (ttlSeconds : Int) (cache : List (String × CacheEntry))
    (key : String) (now : Int) : Option CacheEntry × List (String × CacheEntry) :=
  match dictLookup key cache with
  | none => (none, cache)
  | some e =>
    if now - e.ts > ttlSeconds then (none, dictErase key cache)
    else (some e, cache)

/-- `InvestorService._set_cached` (investor_service.py lines 375-383): a TTL
of zero or less disables storing. -/
def setCached (ttlSeconds : Int) (cache : List (String × CacheEntry)) (key : String)
    (investors : List InvestorProfile) (searchResults : List SearchResult)
    (now : Int) : List (String × CacheEntry) :=
  if ttlSeconds ≤ 0 then cache
  else dictSet key ⟨now, investors, searchResults⟩ cache

/-! ### Trigger classification (chat_service.py lines 53-67 and 461-483) -/

/-- `ChatService.SEARCH_TRIGGERS` (chat_service.py lines 54-60). -/
def SEARCH_TRIGGERS : List String :=
  ["investor", "investors", "investment", "invest",
   "funding", "capital", "raise", "raising",
   "find", "search", "look for", "looking for",
   "startup", "venture", "vc", "angel",
   "seed", "series a", "series b"]

/-- `ChatService.MORE_INVESTORS_TRIGGERS` (chat_service.py lines 63-67). -/
def MORE_INVESTORS_TRIGGERS : List String :=
  ["more", "next", "continue", "show more",
   "additional", "other investors", "remaining",
   "next 10", "more investors"]

/-- `ChatService._is_pagination_request` (chat_service.py lines 469-472). -/
def isPaginationRequest (message : String) : Bool :=
  MORE_INVESTORS_TRIGGERS.any (fun trigger => strContains (pyLower message) trigger)

/-- `ChatService._should_search_investors` (chat_service.py lines 461-467):
a pagination request never triggers a search. -/
def shouldSearchInvestors (message : String) : Bool :=
  if isPaginationRequest message then false
  else SEARCH_TRIGGERS.any (fun trigger => strContains (pyLower message) trigger)

/-- `ChatService.SECTOR_KEYWORDS` (chat_service.py lines 37-51). -/
def SECTOR_KEYWORDS : List (String × List String) :=
  [("healthcare", ["health", "healthcare", "medical", "biotech", "medtech", "pharma", "healthtech"]),
   ("ecommerce", ["ecommerce", "e-commerce", "retail", "marketplace", "dtc", "direct to consumer"]),
   ("ai", ["ai", "artificial intelligence", "machine learning", "ml", "deep learning", "llm", "generative ai"]),
   ("fintech", ["fintech", "finance", "payment", "banking", "neobank", "defi", "crypto", "blockchain"]),
   ("edtech", ["edtech", "education", "learning", "online education", "e-learning"]),
   ("saas", ["saas", "software", "b2b", "enterprise", "cloud", "platform"]),
   ("climate", ["climate", "cleantech", "sustainability", "green", "renewable", "carbon"]),
   ("gaming", ["gaming", "game", "entertainment", "esports", "metaverse"]),
   ("foodtech", ["food", "foodtech", "agtech", "agriculture", "delivery"]),
   ("logistics", ["logistics", "supply chain", "shipping", "freight", "warehouse"]),
   ("proptech", ["proptech", "real estate", "property", "housing"]),
   ("cybersecurity", ["cybersecurity", "security", "infosec", "privacy"]),
   ("robotics", ["robotics", "automation", "manufacturing", "hardware"])]

/-- `ChatService._extract_sectors` (chat_service.py lines 474-483). -/
def extractSectors (message : String) : List String :=
  let found := (SECTOR_KEYWORDS.filter
      (fun p => p.2.any (fun kw => strContains (pyLower message) kw))).map Prod.fst
  if found.isEmpty then ["startup", "technology"] else found

/-! ### MemoryService (memory_service.py lines 134-316), without the optional
file-persistence mirror (persistence_path None) -/

structure MemoryState where
  conversations : List (String × ConversationContext) := []
  max_conversations : Nat := 1000
  max_messages : Nat := 100
  ttl_hours : Int := 24
deriving DecidableEq, Repr

/-- Ordering used by `_cleanup_old_conversations` when it sorts the store:
by last-updated timestamp, ascending. -/
def ctxLe (a b : String × ConversationContext) : Prop :=
  a.2.updated_at ≤ b.2.updated_at

instance : DecidableRel ctxLe :=
  fun a b => inferInstanceAs (Decidable (a.2.updated_at ≤ b.2.updated_at))

instance : IsTotal (String × ConversationContext) ctxLe :=
  ⟨fun a b => Int.le_total a.2.updated_at b.2.updated_at⟩

instance : IsTrans (String × ConversationContext) ctxLe :=
  ⟨fun _ _ _ h₁ h₂ => le_trans h₁ h₂⟩

/-- `MemoryService._cleanup_old_conversations` (memory_service.py lines
288-316): a no-op while the store is at or under the ceiling; otherwise drop
contexts idle past the cutoff, and if the store is still over the ceiling,
drop the oldest-updated contexts down to exactly the ceiling. -/
def cleanupOldConversations (maxConv : Nat) (cutoff : Int)
    (convs : List (String × ConversationContext)) :
    List (String × ConversationContext) :=
  if convs.length ≤ maxConv then convs
  else
    let kept := convs.filter (fun p => !decide (p.2.updated_at < cutoff))
    if kept.length ≤ maxConv then kept
    else
      let sorted := List.insertionSort ctxLe kept
      let removedKeys := (sorted.take (kept.length - maxConv)).map Prod.fst
      kept.filter (fun p => !decide (p.1 ∈ removedKeys))

/-- Fresh context created by `get_or_create_conversation`
(memory_service.py lines 179-181). -/
def newConversation (cid : String) (now : Int) : ConversationContext :=
  { conversation_id := cid, created_at := now, updated_at := now }

/-- `MemoryService.get_or_create_conversation` (memory_service.py lines
168-186): return the stored context, or store a fresh one and then run the
cleanup pass. Returns the context together with the updated store. -/
def getOrCreateConversation (s : MemoryState) (cid : String) (now : Int) :
    ConversationContext × MemoryState :=
  match dictLookup cid s.conversations with
  | some ctx => (ctx, s)
  | none =>
    let ctx := newConversation cid now
    let inserted := dictSet cid ctx s.conversations
    let cutoff := now - s.ttl_hours * 3600
    (ctx, { s with conversations := cleanupOldConversations s.max_conversations cutoff inserted })

/-- Message-trimming step of `MemoryService.save_conversation`
(memory_service.py lines 204-207): when over the cap, keep
`messages[-max_messages:]`. -/
def trimMessages (maxMessages : Nat) (ctx : ConversationContext) : ConversationContext :=
  if ctx.messages.length > maxMessages
  then { ctx with messages := pyLastSlice maxMessages ctx.messages }
  else ctx

/-- `MemoryService.save_conversation` (memory_service.py lines 202-213). -/
def saveConversation (s : MemoryState) (ctx : ConversationContext) : MemoryState :=
  let ctx := trimMessages s.max_messages ctx
  { s with conversations := dictSet ctx.conversation_id ctx s.conversations }

/-- `MemoryService.get_conversation` (memory_service.py lines 188-200),
without persistence. -/
def getConversation (s : MemoryState) (cid : String) : Option ConversationContext :=
  dictLookup cid s.conversations

/-- Context bag handed to the LLM by `build_context_for_llm`
(memory_service.py lines 268-275). -/
structure LLMContext where
  conversation_id : String
  messages : List ChatMessage
  investors : List InvestorProfile
  search_results : List SearchResult
  sectors_discussed : List String
deriving DecidableEq, Repr

/-- `MemoryService.build_context_for_llm` (memory_service.py lines 236-275):
merge the new data into the context (each merge guarded by Python truthiness,
so empty lists are skipped), append the user message, save, and return the
prompt bag plus the updated store. -/
def buildContextForLLM (s : MemoryState) (cid : String) (newMessage : String)
    (newInvestors : List InvestorProfile) (newResults : List SearchResult)
    (newSectors : List String) (maxHistory : Nat) (now : Int) :
    LLMContext × MemoryState :=
  let (ctx, s) := getOrCreateConversation s cid now
  let ctx := if newInvestors.isEmpty then ctx else ctx.add_investors newInvestors now
  let ctx := if newResults.isEmpty then ctx else ctx.add_search_results newResults now
  let ctx := if newSectors.isEmpty then ctx else ctx.add_sectors newSectors now
  let ctx := ctx.add_message .user newMessage now
  let ctx := trimMessages s.max_messages ctx
  let s := { s with conversations := dictSet ctx.conversation_id ctx s.conversations }
  ({ conversation_id := cid,
     messages := getMessageHistory ctx maxHistory,
     investors := ctx.investors,
     search_results := pyLastSlice 20 ctx.search_results,
     sectors_discussed := ctx.sectors_discussed }, s)

/-- `MemoryService.add_assistant_response` (memory_service.py lines 277-286):
a no-op when the conversation does not exist. -/
def addAssistantResponse (s : MemoryState) (cid : String) (response : String)
    (now : Int) : MemoryState :=
  match dictLookup cid s.conversations with
  | none => s
  | some ctx => saveConversation s (ctx.add_message .assistant response now)

/-! ### Provider registry (core/providers.py lines 35-178). Provider classes
and instances are opaque to the registry, so both are modelled by a type
parameter `C`. -/

structure Registry (C : Type) where
  llm_classes : List (String × C) := []
  search_classes : List (String × C) := []
  scraper_classes : List (String × C) := []
  llm_instances : List (String × C) := []
deriving Repr

/-- `Registry.register` for the "llm" kind (core/providers.py lines 53-59):
the name is lowercased; re-registering replaces silently. -/
def Registry.registerLLM (reg : Registry C) (name : String) (cls : C) : Registry C :=
  { reg with llm_classes := dictSet (pyLower name) cls reg.llm_classes }

/-- `Registry.get_class` for the "llm" kind (core/providers.py lines 61-63). -/
def Registry.getLLMClass (reg : Registry C) (name : String) : Option C :=
  dictLookup (pyLower name) reg.llm_classes

/-- `Registry.list_providers` for the "llm" kind (core/providers.py lines
73-75): the currently registered (lowercased) names. -/
def Registry.listLLMProviders (reg : Registry C) : List String :=
  reg.llm_classes.map Prod.fst

/-- Python `repr` of a list of strings, as rendered into the f-string of the
not-found message. -/
def pyReprList (names : List String) : String :=
  "[" ++ String.intercalate ", " (names.map (fun s => "'" ++ s ++ "'")) ++ "]"

/-- Message of the `ConfigurationError` raised by `get_llm`
(core/providers.py lines 166-168). -/
def llmNotFoundMsg (name : String) (available : List String) : String :=
  "LLM provider '" ++ name ++ "' not found. Available: " ++ pyReprList available

/-- `get_llm` (core/providers.py lines 140-178): consult the instance cache
under `name:model`, then resolve the class under the lowercased name; an
unresolved name raises `ConfigurationError` listing the registered names.
Instantiation and the async `initialize` hook are external effects; the
created instance is modelled by the registered class value itself. -/
def getLLM (reg : Registry C) (name : String) (modelName : String)
    (cache : Bool) : Except String (C × Registry C) :=
  let cacheKey := name ++ ":" ++ modelName
  match (if cache then dictLookup cacheKey reg.llm_instances else none) with
  | some inst => .ok (inst, reg)
  | none =>
    match reg.getLLMClass name with
    | none => .error (llmNotFoundMsg name reg.listLLMProviders)
    | some cls =>
      .ok (cls, if cache
        then { reg with llm_instances := dictSet cacheKey cls reg.llm_instances }
        else reg)

/-! ### InvestorService.find_investors (investor_service.py lines 41-258).
The network is modelled by caller-supplied oracles: one `Except` outcome per
search attempt (timeout or exception vs. a result list), and a function for
the result-to-profile processing plus optional scraper enrichment
(lines 129-249), which only runs when the search succeeded. -/

structure Settings where
  search_max_retries : Nat := 2
  search_cache_ttl_minutes : Int := 20
deriving DecidableEq, Repr

/-- Retry loop of `find_investors` (investor_service.py lines 79-100):
`search_results` starts empty and the loop stops at the first successful
attempt, so after the loop it holds the first success, or stays empty when
every attempt failed. -/
def runSearchAttempts : List (Except String (List SearchResult)) → List SearchResult
  | [] => []
  | .ok r :: _ => r
  | .error _ :: rest => runSearchAttempts rest

/-- Location defaulting of `find_investors` (investor_service.py lines
58-60): a falsy location (None or empty) becomes "United States". -/
def defaultLocation : Option String → String
  | none => "United States"
  | some l => if l = "" then "United States" else l

/-- `InvestorService.find_investors` (investor_service.py lines 41-258):
default the location, consult the TTL cache, run the retry loop; an empty
result raises `search_failed`, which the enclosing handler converts into an
empty `(investors, search_results)` return (lines 102-120); on success the
processed profiles are stored back into the cache. -/
def findInvestors (settings : Settings) (cache : List (String × CacheEntry))
    (sectors : List String) (location : Option String) (numResults : Nat)
    (attempts : List (Except String (List SearchResult)))
    (processResults : List SearchResult → List InvestorProfile)
    (now : Int) :
    (List InvestorProfile × List SearchResult) × List (String × CacheEntry) :=
  let key := cacheKey sectors (defaultLocation location) numResults
  let ttl := settings.search_cache_ttl_minutes * 60
  match getCached ttl cache key now with
  | (some e, cache) => ((e.investors, e.search_results), cache)
  | (none, cache) =>
    let searchResults := runSearchAttempts attempts
    if searchResults.isEmpty then (([], []), cache)
    else
      let investors := processResults searchResults
      ((investors, searchResults), setCached ttl cache key investors searchResults now)

/-! ### ChatService.process_message (chat_service.py lines 100-212) -/

structure ChatRequest where
  message : String
  conversation_id : Option String := none
  model_provider : Option String := none
deriving DecidableEq, Repr

structure ChatResponse where
  message : String
  investors : List InvestorProfile := []
  search_results : List SearchResult := []
  conversation_id : String
  sectors_discussed : List String := []
  total_investors_found : Nat := 0
deriving DecidableEq, Repr

/-- `ChatService.process_message` (chat_service.py lines 100-212).
External effects are oracles: `generatedId` stands for `uuid.uuid4()`,
`llmResolution` for the guarded `get_llm` call (lines 117-130, whose failure
returns the error response immediately), `attempts`/`processResults` feed
`find_investors` (lines 137-149, itself wrapped so failures degrade to no new
investors), and `llmOutcome` for `generate_response` (lines 167-185, whose
failure becomes an apologetic message). -/
def processMessage (settings : Settings) (mem : MemoryState)
    (cache : List (String × CacheEntry)) (req : ChatRequest)
    (generatedId : String) (llmResolution : Except String Unit)
    (attempts : List (Except String (List SearchResult)))
    (processResults : List SearchResult → List InvestorProfile)
    (llmOutcome : Except String String) (now : Int) :
    ChatResponse × MemoryState × List (String × CacheEntry) :=
  let cid := req.conversation_id.getD generatedId
  match llmResolution with
  | .error e =>
    ({ message := "Sorry, failed to initialize the model provider: " ++ e,
       conversation_id := cid }, mem, cache)
  | .ok _ =>
    let (found, cache) :=
      if shouldSearchInvestors req.message then
        let sectors := extractSectors req.message
        let (pair, cache) :=
          findInvestors settings cache sectors none 30 attempts processResults now
        ((pair.1, pair.2, sectors), cache)
      else (([], [], []), cache)
    let newInvestors := found.1
    let newResults := found.2.1
    let sectors := found.2.2
    let (llmCtx, mem) :=
      buildContextForLLM mem cid req.message newInvestors newResults sectors 20 now
    let conversation := getConversation mem cid
    let allInvestors := match conversation with
      | some c => c.investors
      | none => newInvestors
    let allResults := match conversation with
      | some c => c.search_results
      | none => newResults
    let (responseText, mem) :=
      match llmOutcome with
      | .ok text => (text, addAssistantResponse mem cid text now)
      | .error e => ("Sorry, an error occurred while generating a response: " ++ e, mem)
    ({ message := responseText,
       investors := allInvestors,
       search_results := pyLastSlice 10 allResults,
       conversation_id := cid,
       sectors_discussed := llmCtx.sectors_discussed,
       total_investors_found := allInvestors.length }, mem, cache)

/-! ### Association-list lemmas -/

theorem dictLookup_dictSet_self (k : String) (v : β) (l : List (String × β)) :
    dictLookup k (dictSet k v l) = some v := by
  induction l with
  | nil => simp [dictSet, dictLookup]
  | cons p rest ih =>
    by_cases h : p.1 = k
    · simp [dictSet, dictLookup, h]
    · simp [dictSet, dictLookup, h, ih]

theorem dictLookup_eq_none_of_not_mem (k : String) (l : List (String × β))
    (h : k ∉ l.map Prod.fst) : dictLookup k l = none := by
  induction l with
  | nil => rfl
  | cons p rest ih =>
    simp only [List.map_cons, List.mem_cons] at h
    push_neg at h
    have hp : ¬ p.1 = k := fun he => h.1 he.symm
    simp [dictLookup, hp, ih h.2]

theorem dictSet_keys_mem {k : String} {v : β} {l : List (String × β)} {x : String}
    (h : x ∈ (dictSet k v l).map Prod.fst) : x = k ∨ x ∈ l.map Prod.fst := by
  induction l with
  | nil => simpa [dictSet] using h
  | cons p rest ih =>
    by_cases hp : p.1 = k
    · simp only [dictSet, if_pos hp, List.map_cons, List.mem_cons] at h
      rcases h with h | h
      · exact Or.inl h
      · exact Or.inr (by simp [h])
    · simp only [dictSet, if_neg hp, List.map_cons, List.mem_cons] at h
      rcases h with h | h
      · exact Or.inr (by simp [h])
      · rcases ih h with h | h
        · exact Or.inl h
        · exact Or.inr (by simp [h])

theorem dictSet_keys_nodup {k : String} {v : β} {l : List (String × β)}
    (h : (l.map Prod.fst).Nodup) : ((dictSet k v l).map Prod.fst).Nodup := by
  induction l with
  | nil => simp [dictSet]
  | cons p rest ih =>
    simp only [List.map_cons, List.nodup_cons] at h
    by_cases hp : p.1 = k
    · simp only [dictSet, if_pos hp, List.map_cons, List.nodup_cons]
      exact ⟨by rw [← hp]; exact h.1, h.2⟩
    · simp only [dictSet, if_neg hp, List.map_cons, List.nodup_cons]
      refine ⟨fun hmem => ?_, ih h.2⟩
      rcases dictSet_keys_mem hmem with he | he
      · exact hp he
      · exact h.1 he

theorem dictLookup_dictErase_self {k : String} {l : List (String × β)}
    (h : (l.map Prod.fst).Nodup) : dictLookup k (dictErase k l) = none := by
  induction l with
  | nil => rfl
  | cons p rest ih =>
    simp only [List.map_cons, List.nodup_cons] at h
    by_cases hp : p.1 = k
    · simp only [dictErase, if_pos hp]
      exact dictLookup_eq_none_of_not_mem k rest (by rw [← hp]; exact h.1)
    · simp [dictErase, dictLookup, hp, ih h.2]

theorem dictSet_append_of_lookup_none {k : String} {v : β} {l : List (String × β)}
    (h : dictLookup k l = none) : dictSet k v l = l ++ [(k, v)] := by
  induction l with
  | nil => rfl
  | cons p rest ih =>
    by_cases hp : p.1 = k
    · simp [dictLookup, hp] at h
    · simp only [dictLookup, if_neg hp] at h
      simp [dictSet, hp, ih h]

/-! ### Field-preservation lemmas for context operations -/

@[simp]
theorem add_message_investors (ctx : ConversationContext) (r : MessageRole)
    (c : String) (now : Int) : (ctx.add_message r c now).investors = ctx.investors := rfl

@[simp]
theorem add_message_id (ctx : ConversationContext) (r : MessageRole)
    (c : String) (now : Int) :
    (ctx.add_message r c now).conversation_id = ctx.conversation_id := rfl

@[simp]
theorem add_sectors_investors (ctx : ConversationContext) (s : List String)
    (now : Int) : (ctx.add_sectors s now).investors = ctx.investors := rfl

@[simp]
theorem add_sectors_id (ctx : ConversationContext) (s : List String) (now : Int) :
    (ctx.add_sectors s now).conversation_id = ctx.conversation_id := rfl

@[simp]
theorem trimMessages_investors (m : Nat) (ctx : ConversationContext) :
    (trimMessages m ctx).investors = ctx.investors := by
  unfold trimMessages; split <;> rfl

@[simp]
theorem trimMessages_id (m : Nat) (ctx : ConversationContext) :
    (trimMessages m ctx).conversation_id = ctx.conversation_id := by
  unfold trimMessages; split <;> rfl

@[simp]
theorem add_message_results (ctx : ConversationContext) (r : MessageRole)
    (c : String) (now : Int) :
    (ctx.add_message r c now).search_results = ctx.search_results := rfl

@[simp]
theorem add_sectors_results (ctx : ConversationContext) (s : List String)
    (now : Int) : (ctx.add_sectors s now).search_results = ctx.search_results := rfl

@[simp]
theorem trimMessages_results (m : Nat) (ctx : ConversationContext) :
    (trimMessages m ctx).search_results = ctx.search_results := by
  unfold trimMessages; split <;> rfl

/-! ### Claim C3: pagination requests never trigger a search -/

/-- Claim C3: for every message, a positive pagination classification
(case-insensitive substring match against MORE_INVESTORS_TRIGGERS) forces
the new-search classification to be false, for the full trigger vocabulary,
even when the message also contains a search trigger word. -/
theorem pagination_excludes_search (message : String)
    (h : isPaginationRequest message = true) :
    shouldSearchInvestors message = false := by
  simp [shouldSearchInvestors, h]

/-- Witness for C3 on a message that contains both the search trigger "find"
and the pagination trigger "more". -/
theorem pagination_excludes_search_witness :
    shouldSearchInvestors "Find more investors" = false :=
  pagination_excludes_search "Find more investors" (by decide)

/-! ### Claim C5: failed LLM resolution aborts the turn -/

/-- Claim C5 (amended): when the requested LLM provider cannot be resolved,
the turn fails immediately with the visible error message, and no
conversation-memory mutation happens at all: the store (and the search
cache) are returned unchanged, so not even the user's own message is
appended, and no investors, search results, sectors, or assistant messages
are added for that turn. -/
theorem llm_resolution_failure_aborts (settings : Settings) (mem : MemoryState)
    (cache : List (String × CacheEntry)) (req : ChatRequest) (gid : String)
    (e : String) (attempts : List (Except String (List SearchResult)))
    (pr : List SearchResult → List InvestorProfile)
    (llm : Except String String) (now : Int) :
    processMessage settings mem cache req gid (.error e) attempts pr llm now =
      ({ message := "Sorry, failed to initialize the model provider: " ++ e,
         conversation_id := req.conversation_id.getD gid }, mem, cache) := rfl

/-- Claim C5 counterexample: starting from an empty store, a turn whose
provider resolution fails leaves the store empty, so the user's own message
is NOT appended — refuting the claim that the turn's one memory mutation is
that append. -/
theorem llm_resolution_failure_counterexample :
    (processMessage {} { conversations := [] } []
        { message := "hi", conversation_id := some "c1" }
        "gen" (.error "boom") [] (fun _ => []) (.ok "reply") 0).2.1.conversations
      = [] := rfl

/-! ### Claim C9: registry resolution errors enumerate registered names -/

/-- Claim C9: resolving an unregistered LLM provider name (when nothing is
cached under its instance key) raises a ConfigurationError whose message
lists exactly the names currently registered for the "llm" kind; resolving a
registered name returns an implementation without raising. -/
theorem getLLM_resolution {C : Type} (reg : Registry C) (name modelName : String) :
    (reg.getLLMClass name = none →
      dictLookup (name ++ ":" ++ modelName) reg.llm_instances = none →
      getLLM reg name modelName true =
        .error (llmNotFoundMsg name reg.listLLMProviders)) ∧
    (∀ cls, reg.getLLMClass name = some cls →
      ∃ r, getLLM reg name modelName true = .ok r) := by
  constructor
  · intro hc hi
    simp [getLLM, hi, hc]
  · intro cls hc
    cases hinst : dictLookup (name ++ ":" ++ modelName) reg.llm_instances with
    | some inst => exact ⟨(inst, reg), by simp [getLLM, hinst]⟩
    | none =>
      exact ⟨(cls, { reg with
          llm_instances := dictSet (name ++ ":" ++ modelName) cls reg.llm_instances }),
        by simp [getLLM, hinst, hc]⟩

/-- Witness for C9: on a registry holding only "gemini", resolving "unknown"
produces the not-found error listing exactly ["gemini"]. -/
theorem getLLM_resolution_witness :
    getLLM ({ llm_classes := [("gemini", 0)] } : Registry Nat) "unknown" "m" true =
      .error (llmNotFoundMsg "unknown" ["gemini"]) :=
  (getLLM_resolution ({ llm_classes := [("gemini", 0)] } : Registry Nat)
    "unknown" "m").1 (by decide) (by decide)

/-! ### Claim C10: save_conversation caps the stored message list -/

/-- Claim C10 (amended): provided the configured max_messages is at least 1
(the default is 100), every save_conversation stores at most max_messages
messages for the saved conversation, keeping only the most recent messages
(a suffix of the original list) and silently discarding older ones. With
max_messages = 0 the Python slice messages[-0:] keeps the whole list, so the
cap fails there. -/
theorem saveConversation_caps_messages (s : MemoryState) (ctx : ConversationContext)
    (h : 1 ≤ s.max_messages) :
    ∃ dropped stored,
      dictLookup ctx.conversation_id (saveConversation s ctx).conversations
        = some stored ∧
      stored.messages.length ≤ s.max_messages ∧
      ctx.messages = dropped ++ stored.messages := by
  unfold saveConversation trimMessages
  by_cases hlen : ctx.messages.length > s.max_messages
  · refine ⟨ctx.messages.take (ctx.messages.length - s.max_messages),
      { ctx with messages := pyLastSlice s.max_messages ctx.messages }, ?_, ?_, ?_⟩
    · simp only [if_pos hlen]
      exact dictLookup_dictSet_self _ _ _
    · simp only [pyLastSlice, if_neg (by omega : ¬ s.max_messages = 0)]
      simp only [List.length_drop]
      omega
    · simp only [pyLastSlice, if_neg (by omega : ¬ s.max_messages = 0)]
      exact (List.take_append_drop _ _).symm
  · refine ⟨[], ctx, ?_, by omega, by simp⟩
    simp only [if_neg hlen]
    exact dictLookup_dictSet_self _ _ _

/-- Witness for C10 at the default cap 100: a two-message context is stored
unchanged (length 2 ≤ 100). -/
theorem saveConversation_caps_messages_witness :
    ∃ dropped stored,
      dictLookup "c"
          (saveConversation { conversations := [] }
            { conversation_id := "c",
              messages := [⟨.user, "a", 0⟩, ⟨.assistant, "b", 1⟩] }).conversations
        = some stored ∧
      stored.messages.length ≤ (100 : Nat) ∧
      [(⟨.user, "a", 0⟩ : ChatMessage), ⟨.assistant, "b", 1⟩] = dropped ++ stored.messages :=
  saveConversation_caps_messages { conversations := [] }
    { conversation_id := "c", messages := [⟨.user, "a", 0⟩, ⟨.assistant, "b", 1⟩] }
    (by decide)

/-- Claim C10 counterexample: with max_messages configured to 0, saving a
one-message context stores it untrimmed (the Python slice messages[-0:] is
the whole list), so the stored conversation holds more messages than the
cap. -/
theorem saveConversation_cap_counterexample :
    dictLookup "c"
        (saveConversation { conversations := [], max_messages := 0 }
          { conversation_id := "c", messages := [⟨.user, "hi", 0⟩] }).conversations
      = some { conversation_id := "c", messages := [⟨.user, "hi", 0⟩] } ∧
    (1 : Nat) > ({ conversations := [], max_messages := 0 } : MemoryState).max_messages := by
  constructor
  · rfl
  · decide

/-! ### Claim C6: search-cache round trip -/

/-- Claim C6: for every key, a put at time tPut followed by a get at tGet
returns the stored (investors, search_results) pair unchanged while
tGet - tPut is within the TTL; once the age exceeds the TTL the get evicts
the stale entry (the key is gone from the returned cache) and reports a
miss; and a configured TTL of zero or less makes put a no-op, so a get of a
key that was never stored stays a miss. -/
theorem cache_roundtrip (ttlMinutes : Int) (cache : List (String × CacheEntry))
    (key : String) (inv : List InvestorProfile) (res : List SearchResult)
    (tPut tGet : Int) (hnodup : (cache.map Prod.fst).Nodup) :
    (0 < ttlMinutes → tGet - tPut ≤ ttlMinutes * 60 →
      (getCached (ttlMinutes * 60) (setCached (ttlMinutes * 60) cache key inv res tPut)
          key tGet).1 = some ⟨tPut, inv, res⟩) ∧
    (0 < ttlMinutes → ttlMinutes * 60 < tGet - tPut →
      (getCached (ttlMinutes * 60) (setCached (ttlMinutes * 60) cache key inv res tPut)
          key tGet).1 = none ∧
      dictLookup key
        (getCached (ttlMinutes * 60) (setCached (ttlMinutes * 60) cache key inv res tPut)
            key tGet).2 = none) ∧
    (ttlMinutes ≤ 0 →
      setCached (ttlMinutes * 60) cache key inv res tPut = cache ∧
      (dictLookup key cache = none →
        ∀ t, (getCached (ttlMinutes * 60) cache key t).1 = none)) := by
  refine ⟨?_, ?_, ?_⟩
  · intro hpos hle
    have hset : setCached (ttlMinutes * 60) cache key inv res tPut
        = dictSet key ⟨tPut, inv, res⟩ cache := by
      unfold setCached
      rw [if_neg (by omega)]
    rw [hset]
    simp only [getCached, dictLookup_dictSet_self]
    rw [if_neg (by omega)]
  · intro hpos hgt
    have hset : setCached (ttlMinutes * 60) cache key inv res tPut
        = dictSet key ⟨tPut, inv, res⟩ cache := by
      unfold setCached
      rw [if_neg (by omega)]
    rw [hset]
    simp only [getCached, dictLookup_dictSet_self]
    rw [if_pos (by omega)]
    exact ⟨rfl, dictLookup_dictErase_self (dictSet_keys_nodup hnodup)⟩
  · intro hnonpos
    have hset : setCached (ttlMinutes * 60) cache key inv res tPut = cache := by
      unfold setCached
      rw [if_pos (by omega)]
    refine ⟨hset, fun hmiss t => ?_⟩
    simp [getCached, hmiss]

/-- Witness for C6 at TTL 20 minutes: put at time 0, get at time 1100
(within 1200 seconds) on an empty cache returns the stored pair. -/
theorem cache_roundtrip_witness :
    (getCached (20 * 60) (setCached (20 * 60) [] "k" [] [] 0) "k" 1100).1
      = some ⟨0, [], []⟩ :=
  (cache_roundtrip 20 [] "k" [] [] 0 1100 (by decide)).1 (by decide) (by decide)

/-! ### Claim C7: cache-key normalization -/

/-- Claim C7: the cache key is built from the ascending-sorted lowercased
sectors, the lowercased location, and the literal result count, so sector
lists that agree up to order and letter case, with locations agreeing up to
case, produce equal keys; in particular the two concrete keys of the claim
coincide. -/
theorem cacheKey_normalizes :
    (∀ (sectors₁ sectors₂ : List String) (loc₁ loc₂ : String) (n : Nat),
      (sectors₁.map pyLower).Perm (sectors₂.map pyLower) →
      pyLower loc₁ = pyLower loc₂ →
      cacheKey sectors₁ loc₁ n = cacheKey sectors₂ loc₂ n) ∧
    cacheKey ["AI", "Healthcare"] "NYC" 10 = cacheKey ["healthcare", "ai"] "nyc" 10 := by
  have general : ∀ (sectors₁ sectors₂ : List String) (loc₁ loc₂ : String) (n : Nat),
      (sectors₁.map pyLower).Perm (sectors₂.map pyLower) →
      pyLower loc₁ = pyLower loc₂ →
      cacheKey sectors₁ loc₁ n = cacheKey sectors₂ loc₂ n := by
    intro s₁ s₂ l₁ l₂ n hperm hloc
    unfold cacheKey
    rw [hloc]
    have hsort : List.insertionSort (fun a b : String => a ≤ b) (s₁.map pyLower)
        = List.insertionSort (fun a b : String => a ≤ b) (s₂.map pyLower) :=
      List.eq_of_perm_of_sorted
        ((List.perm_insertionSort _ _).trans
          (hperm.trans (List.perm_insertionSort _ _).symm))
        (List.sorted_insertionSort _ _) (List.sorted_insertionSort _ _)
    rw [hsort]
  exact ⟨general, general _ _ _ _ _ (by decide) (by decide)⟩

/-- Witness for C7 on a further concrete pair. -/
theorem cacheKey_normalizes_witness :
    cacheKey ["Fintech", "AI"] "Boston" 5 = cacheKey ["ai", "FINTECH"] "BOSTON" 5 :=
  cacheKey_normalizes.1 ["Fintech", "AI"] ["ai", "FINTECH"] "Boston" "BOSTON" 5
    (by decide) (by decide)

/-! ### Claim C2: pagination contract -/

/-- Every page is the size-window of the drop, with the slice bound folded
away (both branches of get_paginated_investors agree with this form). -/
theorem getPaginatedInvestors_fst (l : List InvestorProfile) (p size : Nat) :
    (getPaginatedInvestors l p size).1 = (l.drop (p * size)).take size := by
  unfold getPaginatedInvestors
  by_cases h : p * size ≥ l.length
  · rw [if_pos h]
    simp [List.drop_eq_nil_of_le h]
  · rw [if_neg h]
    simp only []
    rw [List.take_eq_take, List.length_drop]
    omega

/-- Concatenating the pages 0..n-1 yields the first n*size investors. -/
theorem getPaginatedInvestors_flatten (l : List InvestorProfile) (size : Nat) :
    ∀ n, ((List.range n).map (fun q => (getPaginatedInvestors l q size).1)).flatten
      = l.take (n * size) := by
  intro n
  induction n with
  | zero => simp
  | succ n ih =>
    rw [List.range_succ, List.map_append, List.flatten_append]
    simp only [List.map_cons, List.map_nil, List.flatten_cons, List.flatten_nil,
      List.append_nil]
    rw [ih, getPaginatedInvestors_fst, Nat.succ_mul, List.take_add]

/-- Claim C2: for every investor list, page index and positive page size,
get_paginated_investors returns the slice
[p*size, min(p*size+size, len)), the total count, and has_more true exactly
when (p+1)*size < len; a page starting at or past the end is empty with
has_more = false and the true total; and concatenating the pages in order
reconstructs the original list. -/
theorem getPaginatedInvestors_spec (l : List InvestorProfile) (p size : Nat)
    (hsize : 0 < size) :
    (getPaginatedInvestors l p size).1
        = (l.take (min (p * size + size) l.length)).drop (p * size) ∧
    (getPaginatedInvestors l p size).2.1 = l.length ∧
    ((getPaginatedInvestors l p size).2.2 = true ↔ (p + 1) * size < l.length) ∧
    (l.length ≤ p * size →
      (getPaginatedInvestors l p size).1 = [] ∧
      (getPaginatedInvestors l p size).2.1 = l.length ∧
      (getPaginatedInvestors l p size).2.2 = false) ∧
    (∀ n, l.length ≤ n * size →
      ((List.range n).map (fun q => (getPaginatedInvestors l q size).1)).flatten = l) := by
  have hmul : (p + 1) * size = p * size + size := Nat.succ_mul p size
  refine ⟨?_, ?_, ?_, ?_, ?_⟩
  · rw [getPaginatedInvestors_fst, List.drop_take, List.take_eq_take,
      List.length_drop]
    omega
  · unfold getPaginatedInvestors
    by_cases h : p * size ≥ l.length
    · rw [if_pos h]
    · rw [if_neg h]
  · unfold getPaginatedInvestors
    by_cases h : p * size ≥ l.length
    · rw [if_pos h]
      simp only [Bool.false_eq_true, false_iff]
      omega
    · rw [if_neg h]
      simp only [decide_eq_true_eq]
      omega
  · intro h
    unfold getPaginatedInvestors
    rw [if_pos (by omega)]
    exact ⟨rfl, rfl, rfl⟩
  · intro n hn
    rw [getPaginatedInvestors_flatten]
    exact List.take_of_length_le hn

/-- Witness for C2: three investors, page 1 of size 2 reports total 3. -/
theorem getPaginatedInvestors_spec_witness :
    (getPaginatedInvestors [{ name := "A" }, { name := "B" }, { name := "C" }] 1 2).2.1
      = 3 :=
  (getPaginatedInvestors_spec [{ name := "A" }, { name := "B" }, { name := "C" }] 1 2
    (by decide)).2.1

/-! ### Claim C1: dedup invariant of the context merge operations -/

/-- Keyed dedup holds of a list when no two entries share a key. -/
def dedupedBy (key : α → String) (l : List α) : Prop := (l.map key).Nodup

/-- One merge call against a conversation context: either an add_investors
or an add_search_results, with its own timestamp. -/
inductive MergeOp where
  | investors (new : List InvestorProfile) (now : Int)
  | results (new : List SearchResult) (now : Int)

def applyMergeOp (ctx : ConversationContext) : MergeOp → ConversationContext
  | .investors new now => ctx.add_investors new now
  | .results new now => ctx.add_search_results new now

/-- A sequence of merge calls applied in order. -/
def applyMergeOps (ctx : ConversationContext) (ops : List MergeOp) : ConversationContext :=
  ops.foldl applyMergeOp ctx

/-- Core property of the dedup loop: starting from an accumulator whose keys
are all in the seen-set and pairwise distinct, the loop output extends the
accumulator with entries whose keys were outside the seen-set, and keeps the
keys pairwise distinct. -/
theorem dedupAppendLoop_spec (key : α → String) :
    ∀ (new : List α) (seen : List String) (acc : List α),
      (∀ a ∈ acc, key a ∈ seen) → (acc.map key).Nodup →
      ((dedupAppendLoop key seen acc new).2.map key).Nodup ∧
      ∃ t, (dedupAppendLoop key seen acc new).2 = acc ++ t ∧
        ∀ a ∈ t, key a ∉ seen := by
  intro new
  induction new with
  | nil =>
    intro seen acc _ hnodup
    exact ⟨hnodup, [], by simp [dedupAppendLoop], by simp⟩
  | cons x rest ih =>
    intro seen acc hsub hnodup
    by_cases hx : key x ∈ seen
    · rw [dedupAppendLoop, if_pos hx]
      exact ih seen acc hsub hnodup
    · rw [dedupAppendLoop, if_neg hx]
      have hxacc : key x ∉ acc.map key := by
        intro hmem
        rcases List.mem_map.mp hmem with ⟨a, ha, hk⟩
        exact hx (hk ▸ hsub a ha)
      have hsub₂ : ∀ a ∈ acc ++ [x], key a ∈ key x :: seen := by
        intro a ha
        rcases List.mem_append.mp ha with ha | ha
        · exact List.mem_cons_of_mem _ (hsub a ha)
        · simp only [List.mem_singleton] at ha
          subst ha
          exact List.mem_cons_self _ _
      have hnodup₂ : ((acc ++ [x]).map key).Nodup := by
        rw [List.map_append]
        refine List.Nodup.append hnodup (by simp) ?_
        intro b hb hbx
        simp only [List.map_cons, List.map_nil, List.mem_singleton] at hbx
        exact hxacc (hbx ▸ hb)
      obtain ⟨hnd, t, ht, htout⟩ := ih (key x :: seen) (acc ++ [x]) hsub₂ hnodup₂
      refine ⟨hnd, x :: t, by simpa using ht, ?_⟩
      intro a ha
      rcases List.mem_cons.mp ha with ha | ha
      · exact ha ▸ hx
      · exact fun hmem => htout a ha (List.mem_cons_of_mem _ hmem)

/-- One merge step preserves both dedup invariants. -/
theorem applyMergeOp_preserves (ctx : ConversationContext) (op : MergeOp)
    (hinv : dedupedBy invKey ctx.investors)
    (hres : dedupedBy srKey ctx.search_results) :
    dedupedBy invKey (applyMergeOp ctx op).investors ∧
    dedupedBy srKey (applyMergeOp ctx op).search_results := by
  cases op with
  | investors new now =>
    refine ⟨?_, hres⟩
    exact (dedupAppendLoop_spec invKey new (ctx.investors.map invKey) ctx.investors
      (fun a ha => List.mem_map_of_mem invKey ha) hinv).1
  | results new now =>
    refine ⟨hinv, ?_⟩
    exact (dedupAppendLoop_spec srKey new (ctx.search_results.map srKey) ctx.search_results
      (fun a ha => List.mem_map_of_mem srKey ha) hres).1

/-- Claim C1: starting from any context satisfying the dedup invariant (a
freshly created context has empty lists, which do), every sequence of
add_investors / add_search_results calls keeps the invariant: no two stored
investors share a case-insensitively-equal name and no two stored search
results share a URL. Moreover each single call only appends entries whose
key was not yet stored — existing entries are kept in place and incoming
duplicates are skipped. -/
theorem merge_dedup_invariant (ctx : ConversationContext)
    (hinv : dedupedBy invKey ctx.investors)
    (hres : dedupedBy srKey ctx.search_results) :
    (∀ ops : List MergeOp,
      dedupedBy invKey (applyMergeOps ctx ops).investors ∧
      dedupedBy srKey (applyMergeOps ctx ops).search_results) ∧
    (∀ new now, ∃ t, (ctx.add_investors new now).investors = ctx.investors ++ t ∧
      ∀ i ∈ t, invKey i ∉ ctx.investors.map invKey) ∧
    (∀ new now, ∃ t,
      (ctx.add_search_results new now).search_results = ctx.search_results ++ t ∧
      ∀ r ∈ t, srKey r ∉ ctx.search_results.map srKey) := by
  refine ⟨?_, ?_, ?_⟩
  · have main : ∀ (ops : List MergeOp) (c : ConversationContext),
        dedupedBy invKey c.investors → dedupedBy srKey c.search_results →
        dedupedBy invKey (applyMergeOps c ops).investors ∧
        dedupedBy srKey (applyMergeOps c ops).search_results := by
      intro ops
      induction ops with
      | nil => intro c h₁ h₂; exact ⟨h₁, h₂⟩
      | cons op rest ih =>
        intro c h₁ h₂
        obtain ⟨h₁, h₂⟩ := applyMergeOp_preserves c op h₁ h₂
        exact ih (applyMergeOp c op) h₁ h₂
    exact fun ops => main ops ctx hinv hres
  · intro new now
    obtain ⟨_, t, ht, htout⟩ := dedupAppendLoop_spec invKey new
      (ctx.investors.map invKey) ctx.investors
      (fun a ha => List.mem_map_of_mem invKey ha) hinv
    exact ⟨t, ht, htout⟩
  · intro new now
    obtain ⟨_, t, ht, htout⟩ := dedupAppendLoop_spec srKey new
      (ctx.search_results.map srKey) ctx.search_results
      (fun a ha => List.mem_map_of_mem srKey ha) hres
    exact ⟨t, ht, htout⟩

/-- Witness for C1 on the concrete scenario of the spec: adding "John Doe"
then "john doe" to an empty context stores exactly one investor. -/
theorem merge_dedup_invariant_witness :
    dedupedBy invKey
      (applyMergeOps { conversation_id := "c" }
        [.investors [{ name := "John Doe" }, { name := "john doe" }] 0]).investors ∧
    (applyMergeOps { conversation_id := "c" }
        [.investors [{ name := "John Doe" }, { name := "john doe" }] 0]).investors.length
      = 1 := by
  constructor
  · exact ((merge_dedup_invariant { conversation_id := "c" }
      (by simp [dedupedBy]) (by simp [dedupedBy])).1
        [.investors [{ name := "John Doe" }, { name := "john doe" }] 0]).1
  · rfl

/-! ### Claim C8: search failure degrades to an empty result -/

/-- With every attempt failing, the retry loop leaves search_results empty. -/
theorem runSearchAttempts_all_fail (attempts : List (Except String (List SearchResult)))
    (h : ∀ a ∈ attempts, ∃ e, a = Except.error e) :
    runSearchAttempts attempts = [] := by
  induction attempts with
  | nil => rfl
  | cons a rest ih =>
    obtain ⟨e, he⟩ := h a (List.mem_cons_self _ _)
    subst he
    exact ih (fun b hb => h b (List.mem_cons_of_mem _ hb))

/-- When every attempt fails and the cache has no entry under the computed
key, find_investors returns empty lists and leaves the cache unchanged. -/
theorem findInvestors_all_fail (settings : Settings)
    (cache : List (String × CacheEntry)) (sectors : List String)
    (location : Option String) (numResults : Nat)
    (attempts : List (Except String (List SearchResult)))
    (pr : List SearchResult → List InvestorProfile) (now : Int)
    (hfail : ∀ a ∈ attempts, ∃ e, a = Except.error e)
    (hmiss : dictLookup (cacheKey sectors (defaultLocation location) numResults) cache
      = none) :
    findInvestors settings cache sectors location numResults attempts pr now
      = (([], []), cache) := by
  have hget : getCached (settings.search_cache_ttl_minutes * 60) cache
      (cacheKey sectors (defaultLocation location) numResults) now = (none, cache) := by
    simp [getCached, hmiss]
  simp [findInvestors, hget, runSearchAttempts_all_fail attempts hfail]

/-- After a merge turn that brings no new investors and no new results, the
stored context keeps its investor and search-result lists. -/
theorem buildContext_preserves_investors (mem : MemoryState) (cid msg : String)
    (sectors : List String) (maxHist : Nat) (now : Int) (ctx : ConversationContext)
    (hlook : dictLookup cid mem.conversations = some ctx)
    (hid : ctx.conversation_id = cid) :
    ∃ ctx₂,
      getConversation (buildContextForLLM mem cid msg [] [] sectors maxHist now).2 cid
        = some ctx₂ ∧
      ctx₂.investors = ctx.investors ∧
      ctx₂.search_results = ctx.search_results := by
  have hoc : getOrCreateConversation mem cid now = (ctx, mem) := by
    unfold getOrCreateConversation
    rw [hlook]
  cases hsE : sectors.isEmpty with
  | true =>
    refine ⟨trimMessages mem.max_messages (ctx.add_message .user msg now),
      ?_, by simp, by simp⟩
    simp only [buildContextForLLM, hoc, hsE, List.isEmpty_nil, ite_true]
    simp only [getConversation, trimMessages_id, add_message_id, hid]
    exact dictLookup_dictSet_self _ _ _
  | false =>
    refine ⟨trimMessages mem.max_messages
      ((ctx.add_sectors sectors now).add_message .user msg now), ?_, by simp, by simp⟩
    simp only [buildContextForLLM, hoc, hsE, List.isEmpty_nil, ite_true,
      Bool.false_eq_true, ite_false]
    simp only [getConversation, trimMessages_id, add_message_id, add_sectors_id, hid]
    exact dictLookup_dictSet_self _ _ _

/-- Claim C8: when every search attempt fails (timeout or exception, retries
exhausted) find_investors returns empty investor and search-result lists
rather than raising; and the chat turn is not aborted — process_message
still answers with the LLM text, returning the investors already in
memory. -/
theorem search_failure_degrades :
    (∀ (settings : Settings) (cache : List (String × CacheEntry))
        (sectors : List String) (location : Option String) (numResults : Nat)
        (attempts : List (Except String (List SearchResult)))
        (pr : List SearchResult → List InvestorProfile) (now : Int),
      (∀ a ∈ attempts, ∃ e, a = Except.error e) →
      dictLookup (cacheKey sectors (defaultLocation location) numResults) cache = none →
      (findInvestors settings cache sectors location numResults attempts pr now).1
        = ([], [])) ∧
    (∀ (settings : Settings) (mem : MemoryState) (cache : List (String × CacheEntry))
        (req : ChatRequest) (cid gid : String) (ctx : ConversationContext)
        (attempts : List (Except String (List SearchResult)))
        (pr : List SearchResult → List InvestorProfile) (text : String) (now : Int),
      req.conversation_id = some cid →
      dictLookup cid mem.conversations = some ctx →
      ctx.conversation_id = cid →
      (∀ a ∈ attempts, ∃ e, a = Except.error e) →
      dictLookup (cacheKey (extractSectors req.message) "United States" 30) cache
        = none →
      (processMessage settings mem cache req gid (.ok ()) attempts pr (.ok text)
          now).1.message = text ∧
      (processMessage settings mem cache req gid (.ok ()) attempts pr (.ok text)
          now).1.investors = ctx.investors) := by
  constructor
  · intro settings cache sectors location numResults attempts pr now hfail hmiss
    rw [findInvestors_all_fail settings cache sectors location numResults attempts pr
      now hfail hmiss]
  · intro settings mem cache req cid gid ctx attempts pr text now hcid hlook hid
      hfail hmiss
    have hsect : ∀ s : List String, ∃ ctx₂,
        getConversation (buildContextForLLM mem cid req.message [] [] s 20 now).2 cid
          = some ctx₂ ∧ ctx₂.investors = ctx.investors ∧
          ctx₂.search_results = ctx.search_results :=
      fun s => buildContext_preserves_investors mem cid req.message s 20 now ctx hlook hid
    by_cases hss : shouldSearchInvestors req.message
    · have hfind := findInvestors_all_fail settings cache (extractSectors req.message)
        none 30 attempts pr now hfail hmiss
      obtain ⟨ctx₂, hc₂, hi₂, _⟩ := hsect (extractSectors req.message)
      simp only [processMessage, hcid, Option.getD_some, hss, if_true, hfind, hc₂, hi₂]
      constructor <;> trivial
    · obtain ⟨ctx₂, hc₂, hi₂, _⟩ := hsect []
      simp only [processMessage, hcid, Option.getD_some, hss, if_false, hc₂, hi₂,
        Bool.false_eq_true, ite_false]
      constructor <;> trivial

/-- Witness for C8: one failing attempt, empty cache, a stored conversation
holding one investor; the turn answers with the LLM text and that investor. -/
theorem search_failure_degrades_witness :
    (processMessage {}
        { conversations := [("c1",
            { conversation_id := "c1", investors := [{ name := "Jane Roe" }] })] }
        [] { message := "find investors in ai", conversation_id := some "c1" }
        "gen" (.ok ()) [Except.error "timeout"] (fun _ => []) (.ok "here you go")
        7).1.message = "here you go" ∧
    (processMessage {}
        { conversations := [("c1",
            { conversation_id := "c1", investors := [{ name := "Jane Roe" }] })] }
        [] { message := "find investors in ai", conversation_id := some "c1" }
        "gen" (.ok ()) [Except.error "timeout"] (fun _ => []) (.ok "here you go")
        7).1.investors = [{ name := "Jane Roe" }] :=
  search_failure_degrades.2 {}
    { conversations := [("c1",
        { conversation_id := "c1", investors := [{ name := "Jane Roe" }] })] }
    [] { message := "find investors in ai", conversation_id := some "c1" }
    "c1" "gen" { conversation_id := "c1", investors := [{ name := "Jane Roe" }] }
    [Except.error "timeout"] (fun _ => []) "here you go" 7
    rfl rfl rfl (by intro a ha; exact ⟨"timeout", by simpa using ha⟩) rfl

/-! ### Claim C4: eviction policy of get_or_create_conversation -/

theorem dictLookup_ne_none_of_mem (k : String) (l : List (String × β))
    (h : k ∈ l.map Prod.fst) : dictLookup k l ≠ none := by
  induction l with
  | nil => simp at h
  | cons p rest ih =>
    simp only [List.map_cons, List.mem_cons] at h
    by_cases hp : p.1 = k
    · simp [dictLookup, hp]
    · rcases h with h | h
      · exact absurd h.symm hp
      · simp only [dictLookup, if_neg hp]
        exact ih h

/-- The cleanup pass is a no-op while the store is at or under the ceiling
(the early return at memory_service.py lines 290-291). -/
theorem cleanup_of_le (maxConv : Nat) (cutoff : Int)
    (convs : List (String × ConversationContext)) (h : convs.length ≤ maxConv) :
    cleanupOldConversations maxConv cutoff convs = convs := by
  unfold cleanupOldConversations
  rw [if_pos h]

/-- Every survivor of a triggered cleanup pass was stored and is not idle
past the cutoff. -/
theorem cleanup_mem_kept (maxConv : Nat) (cutoff : Int)
    (convs : List (String × ConversationContext)) (h : ¬ convs.length ≤ maxConv)
    (p : String × ConversationContext)
    (hp : p ∈ cleanupOldConversations maxConv cutoff convs) :
    p ∈ convs ∧ ¬ p.2.updated_at < cutoff := by
  unfold cleanupOldConversations at hp
  rw [if_neg h] at hp
  by_cases h₂ : (convs.filter (fun p => !decide (p.2.updated_at < cutoff))).length ≤ maxConv
  · rw [if_pos h₂] at hp
    have := List.mem_filter.mp hp
    exact ⟨this.1, by simpa using this.2⟩
  · rw [if_neg h₂] at hp
    have hkept := (List.mem_filter.mp hp).1
    have := List.mem_filter.mp hkept
    exact ⟨this.1, by simpa using this.2⟩

/-- A triggered cleanup pass over a store with pairwise-distinct keys brings
the count down to at most the ceiling. -/
theorem cleanup_length_le (maxConv : Nat) (cutoff : Int)
    (convs : List (String × ConversationContext))
    (hnodup : (convs.map Prod.fst).Nodup) (h : ¬ convs.length ≤ maxConv) :
    (cleanupOldConversations maxConv cutoff convs).length ≤ maxConv := by
  unfold cleanupOldConversations
  rw [if_neg h]
  set kept := convs.filter (fun p => !decide (p.2.updated_at < cutoff)) with hkeptdef
  by_cases h₂ : kept.length ≤ maxConv
  · rw [if_pos h₂]
    exact h₂
  · rw [if_neg h₂]
    set sorted := List.insertionSort ctxLe kept with hsorteddef
    set toRemove := kept.length - maxConv with htrdef
    set removedKeys := (sorted.take toRemove).map Prod.fst with hrkdef
    set P : String × ConversationContext → Bool :=
      fun p => !decide (p.1 ∈ removedKeys) with hPdef
    have hperm : sorted.Perm kept := List.perm_insertionSort _ _
    have hkeptnodup : (kept.map Prod.fst).Nodup :=
      hnodup.sublist ((List.filter_sublist convs).map Prod.fst)
    have hsortnodup : (sorted.map Prod.fst).Nodup :=
      ((hperm.map Prod.fst).nodup_iff).mpr hkeptnodup
    have hflen : (kept.filter P).length = (sorted.filter P).length :=
      (hperm.filter P).length_eq.symm
    have h₁ : (sorted.take toRemove).filter P = [] := by
      refine List.filter_eq_nil_iff.mpr ?_
      intro p hp
      simp only [hPdef, Bool.not_eq_true', decide_eq_false_iff_not, not_not]
      exact List.mem_map_of_mem Prod.fst hp
    have hmapsplit : sorted.map Prod.fst
        = removedKeys ++ (sorted.drop toRemove).map Prod.fst := by
      rw [hrkdef, ← List.map_append, List.take_append_drop]
    have h₂d : (sorted.drop toRemove).filter P = sorted.drop toRemove := by
      refine List.filter_eq_self.mpr ?_
      intro p hp
      have hdisj := List.disjoint_of_nodup_append (hmapsplit ▸ hsortnodup)
      have hmem : p.1 ∈ (sorted.drop toRemove).map Prod.fst :=
        List.mem_map_of_mem Prod.fst hp
      have : p.1 ∉ removedKeys := fun hin => hdisj hin hmem
      simp [hPdef, this]
    have hlen : (kept.filter P).length = (sorted.drop toRemove).length := by
      rw [hflen]
      conv_lhs => rw [← List.take_append_drop toRemove sorted]
      rw [List.filter_append, h₁, h₂d, List.nil_append]
    rw [hlen, List.length_drop, hperm.length_eq]
    omega

/-- In a triggered cleanup pass, a non-expired entry that was nevertheless
evicted is no newer than any survivor: the ceiling phase removes
oldest-updated entries first. -/
theorem cleanup_oldest (maxConv : Nat) (cutoff : Int)
    (convs : List (String × ConversationContext))
    (hnodup : (convs.map Prod.fst).Nodup) (h : ¬ convs.length ≤ maxConv)
    (p : String × ConversationContext) (hpconvs : p ∈ convs)
    (hpfresh : ¬ p.2.updated_at < cutoff)
    (hpout : p ∉ cleanupOldConversations maxConv cutoff convs)
    (q : String × ConversationContext)
    (hq : q ∈ cleanupOldConversations maxConv cutoff convs) :
    p.2.updated_at ≤ q.2.updated_at := by
  unfold cleanupOldConversations at hpout hq
  rw [if_neg h] at hpout hq
  set kept := convs.filter (fun p => !decide (p.2.updated_at < cutoff)) with hkeptdef
  have hpkept : p ∈ kept := List.mem_filter.mpr ⟨hpconvs, by simpa using hpfresh⟩
  by_cases h₂ : kept.length ≤ maxConv
  · rw [if_pos h₂] at hpout
    exact absurd hpkept hpout
  · rw [if_neg h₂] at hpout hq
    set sorted := List.insertionSort ctxLe kept with hsorteddef
    set toRemove := kept.length - maxConv with htrdef
    set removedKeys := (sorted.take toRemove).map Prod.fst with hrkdef
    set P : String × ConversationContext → Bool :=
      fun p => !decide (p.1 ∈ removedKeys) with hPdef
    have hperm : sorted.Perm kept := List.perm_insertionSort _ _
    have hkeptnodup : (kept.map Prod.fst).Nodup :=
      hnodup.sublist ((List.filter_sublist convs).map Prod.fst)
    have hsortnodup : (sorted.map Prod.fst).Nodup :=
      ((hperm.map Prod.fst).nodup_iff).mpr hkeptnodup
    have hPp : p.1 ∈ removedKeys := by
      by_contra hnot
      refine hpout (List.mem_filter.mpr ⟨hpkept, ?_⟩)
      simp only [Bool.not_eq_true', decide_eq_false_iff_not]
      exact hnot
    have hpsorted : p ∈ sorted := hperm.mem_iff.mpr hpkept
    have hptake : p ∈ sorted.take toRemove := by
      rcases List.mem_map.mp hPp with ⟨p₂, hp₂take, hp₂key⟩
      have hp₂sorted : p₂ ∈ sorted := (List.take_sublist _ _).mem hp₂take
      have : p₂ = p :=
        List.inj_on_of_nodup_map hsortnodup hp₂sorted hpsorted hp₂key
      exact this ▸ hp₂take
    have hqkept := (List.mem_filter.mp hq).1
    have hqP := (List.mem_filter.mp hq).2
    have hqsorted : q ∈ sorted := hperm.mem_iff.mpr hqkept
    have hqdrop : q ∈ sorted.drop toRemove := by
      rcases List.mem_append.mp
        ((List.take_append_drop toRemove sorted) ▸ hqsorted) with hqt | hqd
      · exfalso
        have hqin : q.1 ∈ removedKeys := List.mem_map_of_mem Prod.fst hqt
        simp only [Bool.not_eq_true', decide_eq_false_iff_not] at hqP
        exact hqP hqin
      · exact hqd
    have hsorted : List.Sorted ctxLe sorted := List.sorted_insertionSort _ _
    have hpair : List.Pairwise ctxLe (sorted.take toRemove ++ sorted.drop toRemove) := by
      rw [List.take_append_drop]
      exact hsorted
    exact (List.pairwise_append.mp hpair).2.2 p hptake q hqdrop

/-- Claim C4 (amended): when a creating get_or_create_conversation call
leaves the store at or under the ceiling, no eviction of any kind happens —
the store is exactly the old store plus the fresh context, so contexts idle
past the TTL survive. Only when the store exceeds the ceiling does the
cleanup run, and then: every surviving context is within the TTL, the count
comes down to at most the ceiling, and among non-expired contexts only the
least-recently-updated are evicted (each evictee is no newer than every
survivor). -/
theorem eviction_policy (s : MemoryState) (cid : String) (now : Int)
    (hnew : dictLookup cid s.conversations = none)
    (hnodup : (s.conversations.map Prod.fst).Nodup) :
    (s.conversations.length + 1 ≤ s.max_conversations →
      ((getOrCreateConversation s cid now).2).conversations
        = s.conversations ++ [(cid, newConversation cid now)]) ∧
    (s.max_conversations < s.conversations.length + 1 →
      (∀ p ∈ ((getOrCreateConversation s cid now).2).conversations,
        ¬ p.2.updated_at < now - s.ttl_hours * 3600) ∧
      ((getOrCreateConversation s cid now).2).conversations.length
        ≤ s.max_conversations ∧
      (∀ p ∈ s.conversations ++ [(cid, newConversation cid now)],
        ¬ p.2.updated_at < now - s.ttl_hours * 3600 →
        p ∉ ((getOrCreateConversation s cid now).2).conversations →
        ∀ q ∈ ((getOrCreateConversation s cid now).2).conversations,
          p.2.updated_at ≤ q.2.updated_at)) := by
  have hins : dictSet cid (newConversation cid now) s.conversations
      = s.conversations ++ [(cid, newConversation cid now)] :=
    dictSet_append_of_lookup_none hnew
  have hoc : ((getOrCreateConversation s cid now).2).conversations
      = cleanupOldConversations s.max_conversations (now - s.ttl_hours * 3600)
          (s.conversations ++ [(cid, newConversation cid now)]) := by
    unfold getOrCreateConversation
    rw [hnew]
    simp only [hins]
  have hlen : (s.conversations ++ [(cid, newConversation cid now)]).length
      = s.conversations.length + 1 := by simp
  have hnodup₂ : ((s.conversations ++ [(cid, newConversation cid now)]).map
      Prod.fst).Nodup := by
    rw [List.map_append]
    refine List.Nodup.append hnodup (by simp) ?_
    intro b hb hbc
    simp only [List.map_cons, List.map_nil, List.mem_singleton] at hbc
    subst hbc
    exact dictLookup_ne_none_of_mem _ _ hb hnew
  constructor
  · intro hle
    rw [hoc, cleanup_of_le _ _ _ (by omega)]
  · intro hgt
    have htrig : ¬ (s.conversations ++ [(cid, newConversation cid now)]).length
        ≤ s.max_conversations := by omega
    refine ⟨?_, ?_, ?_⟩
    · intro p hp
      exact (cleanup_mem_kept _ _ _ htrig p (hoc ▸ hp)).2
    · rw [hoc]
      exact cleanup_length_le _ _ _ hnodup₂ htrig
    · intro p hp hpfresh hpout q hq
      exact cleanup_oldest _ _ _ hnodup₂ htrig p hp hpfresh (hoc ▸ hpout) q (hoc ▸ hq)

/-- Witness for C4 on a triggered cleanup: ceiling 2, an expired context and
a fresh one, plus the created one — the store stays within the ceiling. -/
theorem eviction_policy_witness :
    ((getOrCreateConversation
        { conversations :=
            [("a", { conversation_id := "a", updated_at := 0 }),
             ("b", { conversation_id := "b", updated_at := 7000 })],
          max_conversations := 2, ttl_hours := 1 } "c" 10000).2).conversations.length
      ≤ 2 :=
  ((eviction_policy
      { conversations :=
          [("a", { conversation_id := "a", updated_at := 0 }),
           ("b", { conversation_id := "b", updated_at := 7000 })],
        max_conversations := 2, ttl_hours := 1 } "c" 10000 rfl (by decide)).2
    (by decide)).2.1

/-- Claim C4 counterexample: ceiling 2, TTL 1 hour, one context idle since
time 0; a creating call at time 10000 leaves the store at the ceiling, so no
cleanup runs and the stale context (idle far past the TTL) is still stored —
refuting the claim that after any creating call no stored context is older
than now minus the TTL. -/
theorem eviction_ttl_counterexample :
    dictLookup "a" ((getOrCreateConversation
        { conversations := [("a", { conversation_id := "a", updated_at := 0 })],
          max_conversations := 2, ttl_hours := 1 } "b" 10000).2).conversations
      = some { conversation_id := "a", updated_at := 0 } ∧
    ({ conversation_id := "a", updated_at := 0 } : ConversationContext).updated_at
      < 10000 - 1 * 3600 := by
  constructor
  · rfl
  · decide

end InvestorFinder
